import Mathlib

/-!
Verification development for `complex_step.cpp`: a Newton-Raphson solver whose
Jacobian is obtained by the complex-step derivative technique.

The C++ program works on `arma::Col<std::complex<double>>` vectors of fixed
dimension `NUMDIMENSIONS = 3`.  We embed the scalars as exact complex rationals
(`CC`, a pair of `ℚ` components), vectors as `Fin 3 → CC`, and matrices as
`Fin 3 → Fin 3 → ℚ` (row, column).  Mutating routines become pure functions
returning the buffers they write.  The residual (an `arma::norm`, hence a
square root) lives in `ℝ`.  The external dense solver `arma::solve` is not part
of the repository; it is modelled from the spec as exact Cramer solving with a
failure signal on a vanishing determinant.
-/

/-- Complex scalar with exact rational components, the exact-arithmetic
embedding of `std::complex<double>`. -/
structure CC where
  re : ℚ
  im : ℚ
deriving DecidableEq

instance : Zero CC := ⟨⟨0, 0⟩⟩

instance : One CC := ⟨⟨1, 0⟩⟩

instance : Add CC := ⟨fun a b => ⟨a.re + b.re, a.im + b.im⟩⟩

instance : Neg CC := ⟨fun a => ⟨-a.re, -a.im⟩⟩

instance : Sub CC := ⟨fun a b => ⟨a.re - b.re, a.im - b.im⟩⟩

instance : Mul CC := ⟨fun a b => ⟨a.re * b.re - a.im * b.im, a.re * b.im + a.im * b.re⟩⟩

/-- `const int NUMDIMENSIONS = 3;` -/
def NUMDIMENSIONS : ℕ := 3

/-- `const int MAXITERATIONS = 9;` -/
def MAXITERATIONS : ℕ := 9

/-- `const double ERRORTOLLERANCE = 1.0E-4;` -/
noncomputable def ERRORTOLLERANCE : ℝ := 1 / 10 ^ 4

/-- `const double PROBEDISTANCE = 1.0E-22;` -/
def PROBEDISTANCE : ℚ := 1 / 10 ^ 22

/-- The problem-specific model (`calculateDependentVariables`): for each row `i`,
`targetsCalculated[i] = sum(pow(guess.subvec(0,1) - offsets.row(i).subvec(0,1).t(), 2))`
followed by `+ guess[2] * pow(-1.0, i) - offsets.row(i)[2]`. -/
def calculateDependentVariables (myOffsets : Fin 3 → Fin 3 → CC)
    (myCurrentGuess : Fin 3 → CC) : Fin 3 → CC :=
  fun i =>
    ((myCurrentGuess 0 - myOffsets i 0) * (myCurrentGuess 0 - myOffsets i 0) +
        (myCurrentGuess 1 - myOffsets i 1) * (myCurrentGuess 1 - myOffsets i 1)) +
      myCurrentGuess 2 * ⟨(-1 : ℚ) ^ (i : ℕ), 0⟩ - myOffsets i 2

/-- The perturbed guess built inside the `calculateJacobian` column loop:
`oldGuessValue = myCurrentGuess[j]; myCurrentGuess[j] += complex(0.0, PROBEDISTANCE)`. -/
def perturbGuess (g : Fin 3 → CC) (j : Fin 3) (h : ℚ) : Fin 3 → CC :=
  Function.update g j (g j + ⟨0, h⟩)

/-- One pass of the column loop of `calculateJacobian` (loop variable `j`),
acting on the triple (jacobian, targetsCalculated, currentGuess): perturb
coordinate `j`, evaluate the model, write column `j` of the Jacobian as the
imaginary part times `pow(PROBEDISTANCE, -1.0)`, restore coordinate `j`. -/
def jacobianStep (myOffsets : Fin 3 → Fin 3 → CC) (h : ℚ)
    (f : (Fin 3 → Fin 3 → CC) → (Fin 3 → CC) → (Fin 3 → CC))
    (s : (Fin 3 → Fin 3 → ℚ) × (Fin 3 → CC) × (Fin 3 → CC)) (j : Fin 3) :
    (Fin 3 → Fin 3 → ℚ) × (Fin 3 → CC) × (Fin 3 → CC) :=
  let oldGuessValue := s.2.2 j
  let perturbed := perturbGuess s.2.2 j h
  let t := f myOffsets perturbed
  (fun k c => if c = j then (t k).im * h⁻¹ else s.1 k c, t,
    Function.update perturbed j oldGuessValue)

/-- `calculateJacobian`: first computes the unperturbed target evaluation, then
runs the column loop for `j = 0, 1, 2`, and finally resets `myTargetsCalculated`
to the unperturbed evaluation.  Returns the written buffers
(jacobian, targetsCalculated, currentGuess).  The probe distance is a
parameter `h` (the program instantiates it with `PROBEDISTANCE`). -/
def calculateJacobian (myOffsets : Fin 3 → Fin 3 → CC) (h : ℚ)
    (myJacobian : Fin 3 → Fin 3 → ℚ) (myTargetsCalculated : Fin 3 → CC)
    (myCurrentGuess : Fin 3 → CC)
    (f : (Fin 3 → Fin 3 → CC) → (Fin 3 → CC) → (Fin 3 → CC)) :
    (Fin 3 → Fin 3 → ℚ) × (Fin 3 → CC) × (Fin 3 → CC) :=
  let unperturbedTargetsCalculated := f myOffsets myCurrentGuess
  let s := (List.finRange 3).foldl (jacobianStep myOffsets h f)
    (myJacobian, myTargetsCalculated, myCurrentGuess)
  (s.1, unperturbedTargetsCalculated, s.2.2)

/-- Explicit 3-by-3 determinant (cofactor expansion along the first row). -/
def det3 (A : Fin 3 → Fin 3 → ℚ) : ℚ :=
  A 0 0 * (A 1 1 * A 2 2 - A 1 2 * A 2 1) -
    A 0 1 * (A 1 0 * A 2 2 - A 1 2 * A 2 0) +
    A 0 2 * (A 1 0 * A 2 1 - A 1 1 * A 2 0)

/-- Replace column `j` of `A` by the vector `b`. -/
def replaceCol (A : Fin 3 → Fin 3 → ℚ) (j : Fin 3) (b : Fin 3 → ℚ) :
    Fin 3 → Fin 3 → ℚ :=
  fun r c => if c = j then b r else A r c

/-- Matrix-vector product for the 3-by-3 embedding. -/
def mulVec (A : Fin 3 → Fin 3 → ℚ) (v : Fin 3 → ℚ) : Fin 3 → ℚ :=
  fun r => A r 0 * v 0 + A r 1 * v 1 + A r 2 * v 2

/-- Modelled from the spec: the external dense linear solver (`arma::solve`),
which is not part of this repository.  Per the spec it is "a routine
`solve(A, b) → x or failure` ... returns the x satisfying Ax = b, or a failure
signal when A is numerically singular"; realised here by exact Cramer solving
with failure exactly on a vanishing determinant. -/
def solve (A : Fin 3 → Fin 3 → ℚ) (b : Fin 3 → ℚ) : Option (Fin 3 → ℚ) :=
  if det3 A = 0 then none
  else some fun j => det3 (replaceCol A j b) / det3 A

/-- `updateGuess`: `myRealTargets = real(myTargetsCalculated);`
`myCurrentGuess = myCurrentGuess + solve(myJacobian, -myRealTargets, true);`.
Returns the two buffers it writes (currentGuess, realTargets); `none` models a
solver failure (in the program the solver would abort the process). -/
def updateGuess (myCurrentGuess : Fin 3 → CC) (myTargetsCalculated : Fin 3 → CC)
    (myJacobian : Fin 3 → Fin 3 → ℚ) : Option ((Fin 3 → CC) × (Fin 3 → ℚ)) :=
  let myRealTargets := fun k => (myTargetsCalculated k).re
  match solve myJacobian (fun k => -myRealTargets k) with
  | none => none
  | some d => some (fun k => myCurrentGuess k + ⟨d k, 0⟩, myRealTargets)

/-- `calculateResidual`: `myError = norm(real(myTargetsDesired - myTargetsCalculated), 2);`. -/
noncomputable def calculateResidual (myTargetsDesired myTargetsCalculated : Fin 3 → CC) : ℝ :=
  Real.sqrt (∑ i : Fin 3, (((myTargetsDesired i - myTargetsCalculated i).re : ℚ) : ℝ) ^ 2)

/-- The mutable state of `main`'s Newton loop. -/
structure DriverState where
  count : ℕ
  error : ℝ
  guess : Fin 3 → CC
  targets : Fin 3 → CC
  realTargets : Fin 3 → ℚ
  jacobian : Fin 3 → Fin 3 → ℚ

/-- The offset table built in `main`: `offsets.fill(0.0); offsets.col(0)[0] = 1.0;`
`offsets.col(2)[1] = 1.0; offsets.col(2)[2] = 1.0;` (rows (1,0,0), (0,0,1), (0,0,1)). -/
def mainOffsets : Fin 3 → Fin 3 → CC :=
  fun r c =>
    if r = 0 ∧ c = 0 then 1
    else if r = 1 ∧ c = 2 then 1
    else if r = 2 ∧ c = 2 then 1
    else 0

/-- `targetsDesired.fill(0.0);` in `main`. -/
def mainTargetsDesired : Fin 3 → CC := fun _ => 0

/-- The state of `main` just before the `while` loop: `count = 0;`,
`error = 1.0E5;`, `currentGuess.fill(2.0);`, and zero-filled buffers. -/
noncomputable def mainInitialState : DriverState :=
  ⟨0, 10 ^ 5, fun _ => ⟨2, 0⟩, fun _ => 0, fun _ => 0, fun _ _ => 0⟩

/-- The Jacobian-estimator call made by the loop body of `main`
(lines 135-139): `calculateJacobian(offsets, jacobian, targetsCalculated,`
`currentGuess, yourCalculateDependentVariables)`. -/
def estimatorOutput (s : DriverState) :
    (Fin 3 → Fin 3 → ℚ) × (Fin 3 → CC) × (Fin 3 → CC) :=
  calculateJacobian mainOffsets PROBEDISTANCE s.jacobian s.targets s.guess
    calculateDependentVariables

/-- The Jacobian produced by the estimator for the current state. -/
def estimatorJ (s : DriverState) : Fin 3 → Fin 3 → ℚ := (estimatorOutput s).1

/-- The unperturbed real residual produced by the estimator for the current state. -/
def estimatorF (s : DriverState) : Fin 3 → ℚ := fun k => ((estimatorOutput s).2.1 k).re

/-- One body of `main`'s `while` loop (lines 131-160): estimate the Jacobian
and the unperturbed targets, update the guess, re-evaluate the model at the new
guess, compute the residual, and increment the counter.  `none` models an abort
of the external solver.  `td` is `targetsDesired` (zero-filled in `main`). -/
noncomputable def newtonStep (td : Fin 3 → CC) (s : DriverState) : Option DriverState :=
  match updateGuess (estimatorOutput s).2.2 (estimatorOutput s).2.1 (estimatorOutput s).1 with
  | none => none
  | some gr =>
      some ⟨s.count + 1,
        calculateResidual td (calculateDependentVariables mainOffsets gr.1),
        gr.1,
        calculateDependentVariables mainOffsets gr.1,
        gr.2,
        (estimatorOutput s).1⟩

/-- `main`'s loop `while (count < MAXITERATIONS and error > ERRORTOLLERANCE)`,
with the cap `K` and tolerance `ε` as parameters (the program instantiates
`K = MAXITERATIONS`, `ε = ERRORTOLLERANCE`).  `fuel` bounds the recursion; it
is semantically irrelevant as soon as `K ≤ fuel + count`. -/
noncomputable def newtonRun (td : Fin 3 → CC) (K : ℕ) (ε : ℝ) :
    ℕ → DriverState → Option DriverState
  | 0, s => some s
  | fuel + 1, s =>
      if s.count < K ∧ s.error > ε then
        match newtonStep td s with
        | none => none
        | some s2 => newtonRun td K ε fuel s2
      else some s

/-- The point (1, 0, 0), the expected root of the reference paraboloid problem. -/
def rootPoint : Fin 3 → CC := fun m => if m = 0 then 1 else 0

/-! ### Basic lemmas about the scalar embedding -/

@[simp] theorem CC.zero_re : (0 : CC).re = 0 := rfl

@[simp] theorem CC.zero_im : (0 : CC).im = 0 := rfl

@[simp] theorem CC.one_re : (1 : CC).re = 1 := rfl

@[simp] theorem CC.one_im : (1 : CC).im = 0 := rfl

@[simp] theorem CC.add_re (a b : CC) : (a + b).re = a.re + b.re := rfl

@[simp] theorem CC.add_im (a b : CC) : (a + b).im = a.im + b.im := rfl

@[simp] theorem CC.neg_re (a : CC) : (-a).re = -a.re := rfl

@[simp] theorem CC.neg_im (a : CC) : (-a).im = -a.im := rfl

@[simp] theorem CC.sub_re (a b : CC) : (a - b).re = a.re - b.re := rfl

@[simp] theorem CC.sub_im (a b : CC) : (a - b).im = a.im - b.im := rfl

@[simp] theorem CC.mul_re (a b : CC) : (a * b).re = a.re * b.re - a.im * b.im := rfl

@[simp] theorem CC.mul_im (a b : CC) : (a * b).im = a.re * b.im + a.im * b.re := rfl

@[ext] theorem CC.ext_ri (a b : CC) (h1 : a.re = b.re) (h2 : a.im = b.im) : a = b := by
  cases a; cases b; simp_all

theorem CC.add_zero_cc (a : CC) : a + 0 = a := by
  ext <;> simp

/-! ### The Jacobian estimator unfolded -/

theorem perturbGuess_restore (g : Fin 3 → CC) (j : Fin 3) (h : ℚ) :
    Function.update (perturbGuess g j h) j (g j) = g := by
  rw [perturbGuess, Function.update_idem, Function.update_eq_self]

theorem jacobianStep_eq (o : Fin 3 → Fin 3 → CC) (h : ℚ)
    (f : (Fin 3 → Fin 3 → CC) → (Fin 3 → CC) → (Fin 3 → CC))
    (a : Fin 3 → Fin 3 → ℚ) (b g : Fin 3 → CC) (j : Fin 3) :
    jacobianStep o h f (a, b, g) j =
      (fun k c => if c = j then ((f o (perturbGuess g j h)) k).im * h⁻¹ else a k c,
        f o (perturbGuess g j h), g) := by
  simp only [jacobianStep]
  rw [perturbGuess_restore]

/-- The full behaviour of `calculateJacobian`: every column `j` of the returned
Jacobian is the imaginary part of the model at the `j`-perturbed guess times
`h⁻¹`, the returned targets buffer is the unperturbed evaluation, and the guess
is restored. -/
theorem calculateJacobian_spec (o : Fin 3 → Fin 3 → CC) (h : ℚ)
    (j0 : Fin 3 → Fin 3 → ℚ) (t0 g : Fin 3 → CC)
    (f : (Fin 3 → Fin 3 → CC) → (Fin 3 → CC) → (Fin 3 → CC)) :
    calculateJacobian o h j0 t0 g f =
      (fun k c => ((f o (perturbGuess g c h)) k).im * h⁻¹, f o g, g) := by
  have hfr : List.finRange 3 = [0, 1, 2] := by decide
  simp only [calculateJacobian, hfr, List.foldl_cons, List.foldl_nil]
  rw [jacobianStep_eq, jacobianStep_eq, jacobianStep_eq]
  simp only [Prod.mk.injEq, and_true, true_and]
  funext k c
  fin_cases c <;> simp

/-! ### The spec-modelled solver satisfies the solver contract -/

theorem det3_replaceCol_zero (A : Fin 3 → Fin 3 → ℚ) (b : Fin 3 → ℚ) :
    det3 (replaceCol A 0 b) =
      b 0 * (A 1 1 * A 2 2 - A 1 2 * A 2 1) -
        A 0 1 * (b 1 * A 2 2 - A 1 2 * b 2) +
        A 0 2 * (b 1 * A 2 1 - A 1 1 * b 2) := by
  simp [det3, replaceCol]

theorem det3_replaceCol_one (A : Fin 3 → Fin 3 → ℚ) (b : Fin 3 → ℚ) :
    det3 (replaceCol A 1 b) =
      A 0 0 * (b 1 * A 2 2 - A 1 2 * b 2) -
        b 0 * (A 1 0 * A 2 2 - A 1 2 * A 2 0) +
        A 0 2 * (A 1 0 * b 2 - b 1 * A 2 0) := by
  simp [det3, replaceCol]

theorem det3_replaceCol_two (A : Fin 3 → Fin 3 → ℚ) (b : Fin 3 → ℚ) :
    det3 (replaceCol A 2 b) =
      A 0 0 * (A 1 1 * b 2 - b 1 * A 2 1) -
        A 0 1 * (A 1 0 * b 2 - b 1 * A 2 0) +
        b 0 * (A 1 0 * A 2 1 - A 1 1 * A 2 0) := by
  simp [det3, replaceCol]

theorem solve_mulVec (A : Fin 3 → Fin 3 → ℚ) (b d : Fin 3 → ℚ)
    (h : solve A b = some d) : mulVec A d = b := by
  by_cases hd : det3 A = 0
  · simp [solve, hd] at h
  · simp only [solve, hd, if_false, Option.some.injEq] at h
    subst h
    have h0 : A 0 0 * det3 (replaceCol A 0 b) + A 0 1 * det3 (replaceCol A 1 b) +
        A 0 2 * det3 (replaceCol A 2 b) = b 0 * det3 A := by
      rw [det3_replaceCol_zero, det3_replaceCol_one, det3_replaceCol_two]
      simp only [det3]
      ring
    have h1 : A 1 0 * det3 (replaceCol A 0 b) + A 1 1 * det3 (replaceCol A 1 b) +
        A 1 2 * det3 (replaceCol A 2 b) = b 1 * det3 A := by
      rw [det3_replaceCol_zero, det3_replaceCol_one, det3_replaceCol_two]
      simp only [det3]
      ring
    have h2 : A 2 0 * det3 (replaceCol A 0 b) + A 2 1 * det3 (replaceCol A 1 b) +
        A 2 2 * det3 (replaceCol A 2 b) = b 2 * det3 A := by
      rw [det3_replaceCol_zero, det3_replaceCol_one, det3_replaceCol_two]
      simp only [det3]
      ring
    have key : ∀ r : Fin 3,
        A r 0 * det3 (replaceCol A 0 b) + A r 1 * det3 (replaceCol A 1 b) +
          A r 2 * det3 (replaceCol A 2 b) = b r * det3 A := by
      intro r
      fin_cases r
      · exact h0
      · exact h1
      · exact h2
    funext r
    show A r 0 * (det3 (replaceCol A 0 b) / det3 A) +
        A r 1 * (det3 (replaceCol A 1 b) / det3 A) +
        A r 2 * (det3 (replaceCol A 2 b) / det3 A) = b r
    rw [show A r 0 * (det3 (replaceCol A 0 b) / det3 A) +
        A r 1 * (det3 (replaceCol A 1 b) / det3 A) +
        A r 2 * (det3 (replaceCol A 2 b) / det3 A) =
        (A r 0 * det3 (replaceCol A 0 b) + A r 1 * det3 (replaceCol A 1 b) +
          A r 2 * det3 (replaceCol A 2 b)) / det3 A from by ring]
    rw [key r]
    exact mul_div_cancel_right₀ (b r) hd

/-! ### updateGuess unfolded -/

theorem updateGuess_some (g t : Fin 3 → CC) (J : Fin 3 → Fin 3 → ℚ) (d : Fin 3 → ℚ)
    (h : solve J (fun k => -(t k).re) = some d) :
    updateGuess g t J = some (fun k => g k + ⟨d k, 0⟩, fun k => (t k).re) := by
  simp only [updateGuess]
  rw [h]

theorem updateGuess_cases (g t : Fin 3 → CC) (J : Fin 3 → Fin 3 → ℚ)
    (gr : (Fin 3 → CC) × (Fin 3 → ℚ)) (h : updateGuess g t J = some gr) :
    ∃ d, solve J (fun k => -(t k).re) = some d ∧
      gr = (fun k => g k + ⟨d k, 0⟩, fun k => (t k).re) := by
  simp only [updateGuess] at h
  cases hsol : solve J (fun k => -(t k).re) with
  | none => rw [hsol] at h; cases h
  | some d =>
      rw [hsol] at h
      exact ⟨d, rfl, (Option.some.injEq _ _ ▸ h).symm⟩

/-! ### The driver loop unfolded -/

theorem estimatorOutput_guess (s : DriverState) : (estimatorOutput s).2.2 = s.guess := by
  rw [estimatorOutput, calculateJacobian_spec]

theorem estimatorOutput_targets (s : DriverState) :
    (estimatorOutput s).2.1 = calculateDependentVariables mainOffsets s.guess := by
  rw [estimatorOutput, calculateJacobian_spec]

theorem newtonStep_cases (td : Fin 3 → CC) (s s' : DriverState)
    (h : newtonStep td s = some s') :
    ∃ d, solve (estimatorJ s) (fun k => -(estimatorF s k)) = some d ∧
      s'.count = s.count + 1 ∧
      s'.guess = (fun k => s.guess k + ⟨d k, 0⟩) ∧
      s'.targets = calculateDependentVariables mainOffsets s'.guess ∧
      s'.realTargets = estimatorF s ∧
      s'.jacobian = estimatorJ s ∧
      s'.error = calculateResidual td s'.targets := by
  unfold newtonStep at h
  generalize hup : updateGuess (estimatorOutput s).2.2 (estimatorOutput s).2.1
    (estimatorOutput s).1 = u at h
  cases u with
  | none => cases h
  | some gr =>
      obtain ⟨d, hsol, hgr⟩ := updateGuess_cases _ _ _ _ hup
      refine ⟨d, hsol, ?_⟩
      obtain rfl := (Option.some.injEq _ _).mp h
      subst hgr
      rw [estimatorOutput_guess]
      exact ⟨rfl, rfl, rfl, rfl, rfl, rfl⟩

theorem newtonStep_count (td : Fin 3 → CC) (s s' : DriverState)
    (h : newtonStep td s = some s') : s'.count = s.count + 1 := by
  obtain ⟨d, -, hc, -⟩ := newtonStep_cases td s s' h
  exact hc

theorem newtonStep_guess_im (td : Fin 3 → CC) (s s' : DriverState)
    (h : newtonStep td s = some s') : ∀ k, (s'.guess k).im = (s.guess k).im := by
  obtain ⟨d, -, -, hg, -⟩ := newtonStep_cases td s s' h
  intro k
  rw [hg]
  simp

theorem newtonRun_zero (td : Fin 3 → CC) (K : ℕ) (ε : ℝ) (s : DriverState) :
    newtonRun td K ε 0 s = some s := rfl

theorem newtonRun_succ (td : Fin 3 → CC) (K : ℕ) (ε : ℝ) (fuel : ℕ) (s : DriverState) :
    newtonRun td K ε (fuel + 1) s =
      if s.count < K ∧ s.error > ε then
        match newtonStep td s with
        | none => none
        | some s2 => newtonRun td K ε fuel s2
      else some s := rfl

theorem newtonRun_not_guard (td : Fin 3 → CC) (K : ℕ) (ε : ℝ) (s : DriverState)
    (h : ¬(s.count < K ∧ s.error > ε)) :
    ∀ fuel, newtonRun td K ε fuel s = some s := by
  intro fuel
  cases fuel with
  | zero => rfl
  | succ f => rw [newtonRun_succ, if_neg h]

theorem newtonRun_count_le (td : Fin 3 → CC) (K : ℕ) (ε : ℝ) :
    ∀ fuel (s s' : DriverState), s.count ≤ K → newtonRun td K ε fuel s = some s' →
      s'.count ≤ K := by
  intro fuel
  induction fuel with
  | zero =>
      intro s s' hs h
      obtain rfl := (Option.some.injEq _ _).mp h
      exact hs
  | succ f ih =>
      intro s s' hs h
      rw [newtonRun_succ] at h
      by_cases hg : s.count < K ∧ s.error > ε
      · rw [if_pos hg] at h
        cases hstep : newtonStep td s with
        | none => rw [hstep] at h; cases h
        | some s2 =>
            rw [hstep] at h
            refine ih s2 s' ?_ h
            rw [newtonStep_count td s s2 hstep]
            omega
      · rw [if_neg hg] at h
        obtain rfl := (Option.some.injEq _ _).mp h
        exact hs

theorem newtonRun_exit (td : Fin 3 → CC) (K : ℕ) (ε : ℝ) :
    ∀ fuel (s s' : DriverState), K ≤ s.count + fuel →
      newtonRun td K ε fuel s = some s' → s'.error ≤ ε ∨ K ≤ s'.count := by
  intro fuel
  induction fuel with
  | zero =>
      intro s s' hb h
      obtain rfl := (Option.some.injEq _ _).mp h
      right
      omega
  | succ f ih =>
      intro s s' hb h
      rw [newtonRun_succ] at h
      by_cases hg : s.count < K ∧ s.error > ε
      · rw [if_pos hg] at h
        cases hstep : newtonStep td s with
        | none => rw [hstep] at h; cases h
        | some s2 =>
            rw [hstep] at h
            refine ih s2 s' ?_ h
            rw [newtonStep_count td s s2 hstep]
            omega
      · rw [if_neg hg] at h
        obtain rfl := (Option.some.injEq _ _).mp h
        rcases not_and_or.mp hg with hc | he
        · right; omega
        · left; exact le_of_not_lt he

theorem newtonRun_stable (td : Fin 3 → CC) (K : ℕ) (ε : ℝ) :
    ∀ f1 f2 (s : DriverState), K ≤ s.count + f1 → K ≤ s.count + f2 →
      newtonRun td K ε f1 s = newtonRun td K ε f2 s := by
  intro f1
  induction f1 with
  | zero =>
      intro f2 s h1 h2
      have hng : ¬(s.count < K ∧ s.error > ε) := by
        rintro ⟨hc, -⟩
        omega
      rw [newtonRun_zero, newtonRun_not_guard td K ε s hng f2]
  | succ f ih =>
      intro f2 s h1 h2
      cases f2 with
      | zero =>
          have hng : ¬(s.count < K ∧ s.error > ε) := by
            rintro ⟨hc, -⟩
            omega
          rw [newtonRun_zero, newtonRun_not_guard td K ε s hng (f + 1)]
      | succ f2' =>
          rw [newtonRun_succ, newtonRun_succ]
          by_cases hg : s.count < K ∧ s.error > ε
          · rw [if_pos hg, if_pos hg]
            cases hstep : newtonStep td s with
            | none => rfl
            | some s2 =>
                have hc2 := newtonStep_count td s s2 hstep
                exact ih f2' s2 (by omega) (by omega)
          · rw [if_neg hg, if_neg hg]

theorem newtonRun_guess_real (td : Fin 3 → CC) (K : ℕ) (ε : ℝ) :
    ∀ fuel (s s' : DriverState), (∀ k, (s.guess k).im = 0) →
      newtonRun td K ε fuel s = some s' → ∀ k, (s'.guess k).im = 0 := by
  intro fuel
  induction fuel with
  | zero =>
      intro s s' hs h
      obtain rfl := (Option.some.injEq _ _).mp h
      exact hs
  | succ f ih =>
      intro s s' hs h
      rw [newtonRun_succ] at h
      by_cases hg : s.count < K ∧ s.error > ε
      · rw [if_pos hg] at h
        cases hstep : newtonStep td s with
        | none => rw [hstep] at h; cases h
        | some s2 =>
            rw [hstep] at h
            refine ih s2 s' ?_ h
            intro k
            rw [newtonStep_guess_im td s s2 hstep k]
            exact hs k
      · rw [if_neg hg] at h
        obtain rfl := (Option.some.injEq _ _).mp h
        exact hs

/-! ### Claim theorems -/

@[simp] theorem CC.mk_re (a b : ℚ) : (CC.mk a b).re = a := rfl

@[simp] theorem CC.mk_im (a b : ℚ) : (CC.mk a b).im = b := rfl

theorem perturbGuess_as_add (x : Fin 3 → CC) (j : Fin 3) (h : ℚ) :
    perturbGuess x j h = fun m => x m + if m = j then ⟨0, h⟩ else 0 := by
  funext m
  by_cases hm : m = j
  · subst hm
    rw [perturbGuess, Function.update_same, if_pos rfl]
  · rw [perturbGuess, Function.update_noteq hm, if_neg hm, CC.add_zero_cc]

/-- C1: on return from `calculateJacobian`, entry (k, j) of the Jacobian is
the imaginary part of the model at the guess perturbed by i·h in coordinate j,
divided by h; the targets buffer holds the unperturbed evaluation; and the
current-guess vector equals its value at entry. -/
theorem calculateJacobian_contract (o : Fin 3 → Fin 3 → CC) (h : ℚ)
    (j0 : Fin 3 → Fin 3 → ℚ) (t0 x : Fin 3 → CC)
    (f : (Fin 3 → Fin 3 → CC) → (Fin 3 → CC) → (Fin 3 → CC)) :
    (∀ k j, (calculateJacobian o h j0 t0 x f).1 k j =
        ((f o (fun m => x m + if m = j then ⟨0, h⟩ else 0)) k).im / h) ∧
    (calculateJacobian o h j0 t0 x f).2.1 = f o x ∧
    (calculateJacobian o h j0 t0 x f).2.2 = x := by
  rw [calculateJacobian_spec]
  refine ⟨?_, rfl, rfl⟩
  intro k j
  rw [← perturbGuess_as_add x j h, div_eq_mul_inv]

/-- C3: `calculateDependentVariables` computes
Fᵢ(x) = (x₀ − Aᵢ₀)² + (x₁ − Aᵢ₁)² + (−1)ⁱ·x₂ − Aᵢ₂, and with the offset table
built in `main` it evaluates to the zero vector at the point (1, 0, 0). -/
theorem calculateDependentVariables_formula :
    (∀ (A : Fin 3 → Fin 3 → CC) (x : Fin 3 → CC) (i : Fin 3),
      calculateDependentVariables A x i =
        (x 0 - A i 0) * (x 0 - A i 0) + (x 1 - A i 1) * (x 1 - A i 1) +
          (⟨(-1 : ℚ) ^ (i : ℕ), 0⟩ : CC) * x 2 - A i 2) ∧
    (∀ i, calculateDependentVariables mainOffsets rootPoint i = 0) := by
  constructor
  · intro A x i
    simp only [calculateDependentVariables]
    ext <;> simp <;> ring
  · intro i
    fin_cases i <;> ext <;>
      simp [calculateDependentVariables, mainOffsets, rootPoint]

theorem cdv_jacobian_cols (A : Fin 3 → Fin 3 → CC)
    (hA : ∀ i j, (A i j).im = 0) (x : Fin 3 → CC) (hx : ∀ k, (x k).im = 0)
    (h : ℚ) (hne : h ≠ 0) (j0 : Fin 3 → Fin 3 → ℚ) (t0 : Fin 3 → CC) :
    ∀ k, (calculateJacobian A h j0 t0 x calculateDependentVariables).1 k 0 =
        2 * ((x 0).re - (A k 0).re) ∧
      (calculateJacobian A h j0 t0 x calculateDependentVariables).1 k 1 =
        2 * ((x 1).re - (A k 1).re) ∧
      (calculateJacobian A h j0 t0 x calculateDependentVariables).1 k 2 =
        (-1 : ℚ) ^ (k : ℕ) := by
  intro k
  rw [calculateJacobian_spec]
  refine ⟨?_, ?_, ?_⟩
  · show ((calculateDependentVariables A (perturbGuess x 0 h)) k).im * h⁻¹ =
      2 * ((x 0).re - (A k 0).re)
    simp only [calculateDependentVariables, perturbGuess, Function.update_same,
      Function.update_noteq (show (1 : Fin 3) ≠ 0 by decide),
      Function.update_noteq (show (2 : Fin 3) ≠ 0 by decide),
      CC.sub_im, CC.sub_re, CC.add_im, CC.add_re, CC.mul_im, CC.mul_re,
      CC.mk_re, CC.mk_im, hx, hA]
    field_simp
    ring
  · show ((calculateDependentVariables A (perturbGuess x 1 h)) k).im * h⁻¹ =
      2 * ((x 1).re - (A k 1).re)
    simp only [calculateDependentVariables, perturbGuess, Function.update_same,
      Function.update_noteq (show (0 : Fin 3) ≠ 1 by decide),
      Function.update_noteq (show (2 : Fin 3) ≠ 1 by decide),
      CC.sub_im, CC.sub_re, CC.add_im, CC.add_re, CC.mul_im, CC.mul_re,
      CC.mk_re, CC.mk_im, hx, hA]
    field_simp
    ring
  · show ((calculateDependentVariables A (perturbGuess x 2 h)) k).im * h⁻¹ =
      (-1 : ℚ) ^ (k : ℕ)
    simp only [calculateDependentVariables, perturbGuess, Function.update_same,
      Function.update_noteq (show (0 : Fin 3) ≠ 2 by decide),
      Function.update_noteq (show (1 : Fin 3) ≠ 2 by decide),
      CC.sub_im, CC.sub_re, CC.add_im, CC.add_re, CC.mul_im, CC.mul_re,
      CC.mk_re, CC.mk_im, hx, hA]
    field_simp

/-- C4: in exact complex arithmetic, for every real offset table, every real
iterate and every probe distance h > 0, the Jacobian computed by
`calculateJacobian` on the paraboloid model is exactly the analytic one:
row k is (2(x₀ − Aₖ₀), 2(x₁ − Aₖ₁), (−1)ᵏ), with no h-dependent term. -/
theorem complexStep_jacobian_exact (A : Fin 3 → Fin 3 → CC)
    (hA : ∀ i j, (A i j).im = 0) (x : Fin 3 → CC) (hx : ∀ k, (x k).im = 0)
    (h : ℚ) (hh : 0 < h) (j0 : Fin 3 → Fin 3 → ℚ) (t0 : Fin 3 → CC) :
    ∀ k, (calculateJacobian A h j0 t0 x calculateDependentVariables).1 k 0 =
        2 * ((x 0).re - (A k 0).re) ∧
      (calculateJacobian A h j0 t0 x calculateDependentVariables).1 k 1 =
        2 * ((x 1).re - (A k 1).re) ∧
      (calculateJacobian A h j0 t0 x calculateDependentVariables).1 k 2 =
        (-1 : ℚ) ^ (k : ℕ) :=
  cdv_jacobian_cols A hA x hx h (ne_of_gt hh) j0 t0

/-- Witness for C4 at the reference offsets, the initial guess (2, 2, 2) and
the probe distance of the program. -/
theorem complexStep_jacobian_exact_witness :
    ((∀ i j, (mainOffsets i j).im = 0) ∧ (∀ k : Fin 3, ((fun _ => (⟨2, 0⟩ : CC)) k).im = 0) ∧
      0 < PROBEDISTANCE) ∧
    (∀ k, (calculateJacobian mainOffsets PROBEDISTANCE (fun _ _ => 0) (fun _ => 0)
        (fun _ => ⟨2, 0⟩) calculateDependentVariables).1 k 0 =
          2 * (((fun _ => (⟨2, 0⟩ : CC)) 0).re - (mainOffsets k 0).re) ∧
      (calculateJacobian mainOffsets PROBEDISTANCE (fun _ _ => 0) (fun _ => 0)
        (fun _ => ⟨2, 0⟩) calculateDependentVariables).1 k 1 =
          2 * (((fun _ => (⟨2, 0⟩ : CC)) 1).re - (mainOffsets k 1).re) ∧
      (calculateJacobian mainOffsets PROBEDISTANCE (fun _ _ => 0) (fun _ => 0)
        (fun _ => ⟨2, 0⟩) calculateDependentVariables).1 k 2 =
          (-1 : ℚ) ^ (k : ℕ)) :=
  ⟨⟨by decide, fun k => rfl, by norm_num [PROBEDISTANCE]⟩,
    complexStep_jacobian_exact mainOffsets (by decide) (fun _ => ⟨2, 0⟩)
      (by decide) PROBEDISTANCE (by norm_num [PROBEDISTANCE]) (fun _ _ => 0) (fun _ => 0)⟩

/-- C5: the complex-step mechanism is the only source of imaginary parts: the
probed guess carries imaginary part h exactly in the probed coordinate; the
increment added by `updateGuess` is purely real; the initial guess is real;
and the Newton loop preserves realness of the iterate. -/
theorem imaginary_discipline (x : Fin 3 → CC) (hx : ∀ k, (x k).im = 0) (h : ℚ)
    (hh : 0 < h) (j : Fin 3) :
    (∀ k, (perturbGuess x j h k).im = if k = j then h else 0) ∧
    (perturbGuess x j h j).im ≠ 0 ∧
    (∀ (g t : Fin 3 → CC) (J : Fin 3 → Fin 3 → ℚ)
        (gr : (Fin 3 → CC) × (Fin 3 → ℚ)),
      updateGuess g t J = some gr → ∀ k, (gr.1 k).im = (g k).im) ∧
    (∀ k, (mainInitialState.guess k).im = 0) ∧
    (∀ (td : Fin 3 → CC) (K fuel : ℕ) (ε : ℝ) (s s' : DriverState),
      (∀ k, (s.guess k).im = 0) → newtonRun td K ε fuel s = some s' →
      ∀ k, (s'.guess k).im = 0) := by
  refine ⟨?_, ?_, ?_, ?_, ?_⟩
  · intro k
    by_cases hk : k = j
    · subst hk
      rw [perturbGuess, Function.update_same, if_pos rfl, CC.add_im, hx, zero_add,
        CC.mk_im]
    · rw [perturbGuess, Function.update_noteq hk, if_neg hk, hx]
  · rw [perturbGuess, Function.update_same, CC.add_im, hx, zero_add, CC.mk_im]
    exact ne_of_gt hh
  · intro g t J gr hup k
    obtain ⟨d, -, rfl⟩ := updateGuess_cases g t J gr hup
    simp
  · intro k
    rfl
  · intro td K fuel ε s s' hs hr
    exact newtonRun_guess_real td K ε fuel s s' hs hr

/-- Witness for C5 at the initial guess, the program's probe distance and
column 0. -/
theorem imaginary_discipline_witness :
    ((∀ k, (((fun _ => (⟨2, 0⟩ : CC)) : Fin 3 → CC) k).im = 0) ∧
      0 < PROBEDISTANCE) ∧
    ((∀ k, (perturbGuess (fun _ => ⟨2, 0⟩) 0 PROBEDISTANCE k).im =
        if k = 0 then PROBEDISTANCE else 0) ∧
      (perturbGuess (fun _ => ⟨2, 0⟩) 0 PROBEDISTANCE 0).im ≠ 0 ∧
      (∀ (g t : Fin 3 → CC) (J : Fin 3 → Fin 3 → ℚ)
          (gr : (Fin 3 → CC) × (Fin 3 → ℚ)),
        updateGuess g t J = some gr → ∀ k, (gr.1 k).im = (g k).im) ∧
      (∀ k, (mainInitialState.guess k).im = 0) ∧
      (∀ (td : Fin 3 → CC) (K fuel : ℕ) (ε : ℝ) (s s' : DriverState),
        (∀ k, (s.guess k).im = 0) → newtonRun td K ε fuel s = some s' →
        ∀ k, (s'.guess k).im = 0)) :=
  ⟨⟨by decide, by norm_num [PROBEDISTANCE]⟩,
    imaginary_discipline (fun _ => ⟨2, 0⟩) (by decide) PROBEDISTANCE
      (by norm_num [PROBEDISTANCE]) 0⟩

/-- C9: `calculateResidual` returns the Euclidean norm of the real part of
the difference of desired and calculated targets — equal to
‖Re F − Re F*‖₂ with no scaling or weighting — and is non-negative. -/
theorem calculateResidual_norm (d c : Fin 3 → CC) :
    calculateResidual d c =
      ‖((WithLp.equiv 2 (Fin 3 → ℝ)).symm
          (fun i => (((c i).re : ℚ) : ℝ) - (((d i).re : ℚ) : ℝ)) :
        EuclideanSpace ℝ (Fin 3))‖ ∧
    0 ≤ calculateResidual d c := by
  constructor
  · rw [EuclideanSpace.norm_eq, calculateResidual]
    congr 1
    refine Finset.sum_congr rfl fun i _ => ?_
    rw [WithLp.equiv_symm_pi_apply, Real.norm_eq_abs, sq_abs, CC.sub_re]
    push_cast
    ring
  · exact Real.sqrt_nonneg _

/-- C6: for every cap K ≥ 1 and tolerance ε > 0, the driver loop runs its body
only while count < K and error > ε, terminates within K iterations (extra fuel
beyond K changes nothing), and on normal exit either error ≤ ε or count = K;
the reference configuration is K = 9, ε = 10⁻⁴. -/
theorem newton_driver_termination (td : Fin 3 → CC) (K : ℕ) (hK : 1 ≤ K) (ε : ℝ)
    (hε : 0 < ε) (s : DriverState) (h0 : s.count = 0) (fuel : ℕ)
    (hfuel : K ≤ fuel) :
    MAXITERATIONS = 9 ∧ ERRORTOLLERANCE = 1 / 10 ^ 4 ∧
    newtonRun td K ε fuel s = newtonRun td K ε K s ∧
    ∀ s', newtonRun td K ε fuel s = some s' →
      s'.count ≤ K ∧ (s'.error ≤ ε ∨ s'.count = K) := by
  refine ⟨rfl, rfl, ?_, ?_⟩
  · exact newtonRun_stable td K ε fuel K s (by omega) (by omega)
  · intro s' h
    have hcle := newtonRun_count_le td K ε fuel s s' (by omega) h
    have hex := newtonRun_exit td K ε fuel s s' (by omega) h
    refine ⟨hcle, ?_⟩
    rcases hex with he | hc
    · exact Or.inl he
    · exact Or.inr (by omega)

/-- Witness for C6 at the reference configuration K = 9, ε = ERRORTOLLERANCE,
starting from the initial state of `main`. -/
theorem newton_driver_termination_witness :
    ((1 : ℕ) ≤ 9 ∧ (0 : ℝ) < ERRORTOLLERANCE ∧ mainInitialState.count = 0 ∧
      (9 : ℕ) ≤ 9) ∧
    (MAXITERATIONS = 9 ∧ ERRORTOLLERANCE = 1 / 10 ^ 4 ∧
      newtonRun mainTargetsDesired 9 ERRORTOLLERANCE 9 mainInitialState =
        newtonRun mainTargetsDesired 9 ERRORTOLLERANCE 9 mainInitialState ∧
      ∀ s', newtonRun mainTargetsDesired 9 ERRORTOLLERANCE 9 mainInitialState =
          some s' → s'.count ≤ 9 ∧ (s'.error ≤ ERRORTOLLERANCE ∨ s'.count = 9)) :=
  ⟨⟨by norm_num, by norm_num [ERRORTOLLERANCE], rfl, by norm_num⟩,
    newton_driver_termination mainTargetsDesired 9 (by norm_num) ERRORTOLLERANCE
      (by norm_num [ERRORTOLLERANCE]) mainInitialState rfl 9 (by norm_num)⟩

/-- C8 counterexample: the initial residual is 10⁵, not +∞; at the finite
positive tolerance ε = 10⁵ the loop body is never entered (the run returns the
initial state unchanged, count still 0), refuting that the loop is entered for
every finite tolerance ε > 0. -/
theorem initial_residual_cex :
    (0 : ℝ) < 10 ^ 5 ∧
    newtonRun mainTargetsDesired MAXITERATIONS (10 ^ 5 : ℝ) 9 mainInitialState =
      some mainInitialState := by
  constructor
  · norm_num
  · rw [show (9 : ℕ) = 8 + 1 from rfl, newtonRun_succ, if_neg]
    rintro ⟨-, habs⟩
    have he : mainInitialState.error = 10 ^ 5 := rfl
    rw [he] at habs
    exact lt_irrefl _ habs

/-- C8 (amended): at the start of the solve, count = 0, the iterate is the
all-2.0 initial guess, and the residual is initialised to 10⁵ (not +∞), so the
loop guard holds for every tolerance 0 < ε < 10⁵. -/
theorem initial_state_spec :
    mainInitialState.count = 0 ∧
    mainInitialState.guess = (fun _ => (⟨2, 0⟩ : CC)) ∧
    mainInitialState.error = 10 ^ 5 ∧
    ∀ ε : ℝ, 0 < ε → ε < 10 ^ 5 →
      (mainInitialState.count < MAXITERATIONS ∧ mainInitialState.error > ε) := by
  refine ⟨rfl, rfl, rfl, ?_⟩
  intro ε h1 h2
  constructor
  · show (0 : ℕ) < 9
    norm_num
  · show (10 ^ 5 : ℝ) > ε
    exact h2

/-- Witness for C8 (amended) at the reference tolerance 10⁻⁴. -/
theorem initial_state_spec_witness :
    ((0 : ℝ) < 1 / 10 ^ 4 ∧ (1 / 10 ^ 4 : ℝ) < 10 ^ 5) ∧
    (mainInitialState.count < MAXITERATIONS ∧
      mainInitialState.error > (1 / 10 ^ 4 : ℝ)) :=
  ⟨⟨by norm_num, by norm_num⟩,
    initial_state_spec.2.2.2 (1 / 10 ^ 4) (by norm_num) (by norm_num)⟩


/-! ### The first iteration from the initial state, concretely -/

theorem estimatorJ_init :
    estimatorJ mainInitialState 0 0 = 2 ∧ estimatorJ mainInitialState 0 1 = 4 ∧
    estimatorJ mainInitialState 0 2 = 1 ∧ estimatorJ mainInitialState 1 0 = 4 ∧
    estimatorJ mainInitialState 1 1 = 4 ∧ estimatorJ mainInitialState 1 2 = -1 ∧
    estimatorJ mainInitialState 2 0 = 4 ∧ estimatorJ mainInitialState 2 1 = 4 ∧
    estimatorJ mainInitialState 2 2 = 1 := by
  have hP : PROBEDISTANCE ≠ 0 := by norm_num [PROBEDISTANCE]
  have e := fun k => cdv_jacobian_cols mainOffsets (by decide) mainInitialState.guess
    (fun m => rfl) PROBEDISTANCE hP mainInitialState.jacobian mainInitialState.targets k
  refine ⟨?_, ?_, ?_, ?_, ?_, ?_, ?_, ?_, ?_⟩
  · exact (e 0).1.trans (by simp [mainOffsets, mainInitialState] <;> norm_num)
  · exact (e 0).2.1.trans (by simp [mainOffsets, mainInitialState] <;> norm_num)
  · exact (e 0).2.2.trans (by simp)
  · exact (e 1).1.trans (by simp [mainOffsets, mainInitialState] <;> norm_num)
  · exact (e 1).2.1.trans (by simp [mainOffsets, mainInitialState] <;> norm_num)
  · exact (e 1).2.2.trans (by simp)
  · exact (e 2).1.trans (by simp [mainOffsets, mainInitialState] <;> norm_num)
  · exact (e 2).2.1.trans (by simp [mainOffsets, mainInitialState] <;> norm_num)
  · exact (e 2).2.2.trans (by simp)

theorem estimatorF_init :
    estimatorF mainInitialState 0 = 7 ∧ estimatorF mainInitialState 1 = 5 ∧
    estimatorF mainInitialState 2 = 9 := by
  have ht := estimatorOutput_targets mainInitialState
  refine ⟨?_, ?_, ?_⟩ <;>
  · show ((estimatorOutput mainInitialState).2.1 _).re = _
    rw [ht]
    simp [calculateDependentVariables, mainOffsets, mainInitialState] <;> norm_num

theorem solve_init :
    solve (estimatorJ mainInitialState)
        (fun k => -(estimatorF mainInitialState k)) =
      some fun k : Fin 3 => if k = 0 then -1 else if k = 1 then -3 / 4 else -2 := by
  obtain ⟨j00, j01, j02, j10, j11, j12, j20, j21, j22⟩ := estimatorJ_init
  obtain ⟨f0, f1, f2⟩ := estimatorF_init
  have hdet : det3 (estimatorJ mainInitialState) = -16 := by
    rw [det3, j00, j01, j02, j10, j11, j12, j20, j21, j22]
    norm_num
  rw [solve, hdet, if_neg (by norm_num : (-16 : ℚ) ≠ 0)]
  refine congrArg some (funext fun j => ?_)
  fin_cases j
  · show det3 (replaceCol (estimatorJ mainInitialState) 0
        fun k => -(estimatorF mainInitialState k)) / (-16 : ℚ) = -1
    rw [det3_replaceCol_zero]
    simp only [j01, j02, j11, j12, j21, j22, f0, f1, f2]
    norm_num
  · show det3 (replaceCol (estimatorJ mainInitialState) 1
        fun k => -(estimatorF mainInitialState k)) / (-16 : ℚ) = -3 / 4
    rw [det3_replaceCol_one]
    simp only [j00, j02, j10, j12, j20, j22, f0, f1, f2]
    norm_num
  · show det3 (replaceCol (estimatorJ mainInitialState) 2
        fun k => -(estimatorF mainInitialState k)) / (-16 : ℚ) = -2
    rw [det3_replaceCol_two]
    simp only [j00, j01, j10, j11, j20, j21, f0, f1, f2]
    norm_num

/-- C2 (amended): in every Newton iteration the driver computes the update Δ by
solving J·Δ = −F, with the Jacobian J and unperturbed residual F taken from the
estimator (the desired-targets vector is not consulted), and sets x ← x + Δ. -/
theorem newton_update_solves (td : Fin 3 → CC) (s : DriverState) (d : Fin 3 → ℚ)
    (h : solve (estimatorJ s) (fun k => -(estimatorF s k)) = some d) :
    mulVec (estimatorJ s) d = (fun k => -(estimatorF s k)) ∧
    ∀ s', newtonStep td s = some s' →
      s'.guess = fun k => s.guess k + ⟨d k, 0⟩ := by
  refine ⟨solve_mulVec _ _ _ h, ?_⟩
  intro s' hstep
  obtain ⟨d2, hsol2, -, hg, -⟩ := newtonStep_cases td s s' hstep
  rw [h] at hsol2
  obtain rfl := (Option.some.injEq _ _).mp hsol2
  exact hg

/-- Witness for C2 (amended) at the first iteration of the program. -/
theorem newton_update_solves_witness :
    solve (estimatorJ mainInitialState)
        (fun k => -(estimatorF mainInitialState k)) =
      some (fun k : Fin 3 => if k = 0 then -1 else if k = 1 then -3 / 4 else -2) ∧
    (mulVec (estimatorJ mainInitialState)
        (fun k : Fin 3 => if k = 0 then -1 else if k = 1 then (-3 / 4 : ℚ) else -2) =
      (fun k => -(estimatorF mainInitialState k)) ∧
    ∀ s', newtonStep mainTargetsDesired mainInitialState = some s' →
      s'.guess = fun k => mainInitialState.guess k +
        ⟨(fun k : Fin 3 => if k = 0 then (-1 : ℚ) else if k = 1 then -3 / 4 else -2) k,
          0⟩) :=
  ⟨solve_init, newton_update_solves mainTargetsDesired mainInitialState
    (fun k : Fin 3 => if k = 0 then -1 else if k = 1 then -3 / 4 else -2) solve_init⟩

/-- C2 counterexample: with the desired-target vector F* = (1,1,1), the update
Δ = (−1, −3/4, −2) actually computed at the first iteration (x ← x + Δ) does
not satisfy J·Δ = −(F − F*): row 0 of J·Δ is −7 = −F₀ while −(F₀ − F₀*) = −6.
The driver ignores the desired targets when solving. -/
theorem newton_update_target_cex :
    updateGuess mainInitialState.guess
        (calculateDependentVariables mainOffsets mainInitialState.guess)
        (estimatorJ mainInitialState) =
      some (fun k => mainInitialState.guess k +
          ⟨(fun k : Fin 3 => if k = 0 then (-1 : ℚ) else if k = 1 then -3 / 4 else -2) k,
            0⟩,
        fun k => ((calculateDependentVariables mainOffsets mainInitialState.guess) k).re) ∧
    mulVec (estimatorJ mainInitialState)
        (fun k : Fin 3 => if k = 0 then -1 else if k = 1 then (-3 / 4 : ℚ) else -2) ≠
      (fun k => -(estimatorF mainInitialState k - (fun _ => (1 : ℚ)) k)) := by
  constructor
  · exact updateGuess_some _ _ _ _ solve_init
  · intro habs
    obtain ⟨j00, j01, j02, -⟩ := estimatorJ_init
    obtain ⟨f0, -, -⟩ := estimatorF_init
    have h0 := congrFun habs 0
    simp only [mulVec, j00, j01, j02, f0] at h0
    simp at h0
    norm_num at h0

/-- C10: `updateGuess` writes exactly the two buffers it returns: the current
guess is incremented by the solve result (the Jacobian and the complex targets
vector, passed by const reference, are untouched), the real-targets buffer is
overwritten with the real part of the calculated targets, and the imaginary
parts of the calculated targets never influence the result. -/
theorem updateGuess_frame (g t : Fin 3 → CC) (J : Fin 3 → Fin 3 → ℚ)
    (d : Fin 3 → ℚ) (h : solve J (fun k => -(t k).re) = some d) :
    updateGuess g t J = some (fun k => g k + ⟨d k, 0⟩, fun k => (t k).re) ∧
    ∀ t2 : Fin 3 → CC, (∀ k, (t2 k).re = (t k).re) →
      updateGuess g t2 J = updateGuess g t J := by
  constructor
  · exact updateGuess_some g t J d h
  · intro t2 h2
    simp only [updateGuess]
    rw [show (fun k => -(t2 k).re) = fun k => -(t k).re from
      funext fun k => by rw [h2 k]]
    rw [show (fun k => (t2 k).re) = fun k => (t k).re from funext h2]

theorem solve_id_neg :
    solve (fun r c => if r = c then (1 : ℚ) else 0) (fun _ => -3) =
      some fun _ : Fin 3 => -3 := by
  have hdet : det3 (fun r c : Fin 3 => if r = c then (1 : ℚ) else 0) = 1 := by
    simp [det3]
  rw [solve, hdet, if_neg (by norm_num : (1 : ℚ) ≠ 0)]
  refine congrArg some (funext fun j => ?_)
  fin_cases j
  · show det3 (replaceCol (fun r c => if r = c then (1 : ℚ) else 0) 0
        fun _ => (-3 : ℚ)) / 1 = -3
    rw [det3_replaceCol_zero]
    simp
  · show det3 (replaceCol (fun r c => if r = c then (1 : ℚ) else 0) 1
        fun _ => (-3 : ℚ)) / 1 = -3
    rw [det3_replaceCol_one]
    simp
  · show det3 (replaceCol (fun r c => if r = c then (1 : ℚ) else 0) 2
        fun _ => (-3 : ℚ)) / 1 = -3
    rw [det3_replaceCol_two]
    simp

/-- Witness for C10 on the identity Jacobian and a targets vector with
nonzero imaginary parts. -/
theorem updateGuess_frame_witness :
    solve (fun r c => if r = c then (1 : ℚ) else 0)
        (fun k => -(((fun _ : Fin 3 => (⟨3, 5⟩ : CC)) k).re)) =
      some (fun _ : Fin 3 => (-3 : ℚ)) ∧
    (updateGuess (fun _ => 0) (fun _ => ⟨3, 5⟩)
        (fun r c => if r = c then (1 : ℚ) else 0) =
      some (fun k => (fun _ : Fin 3 => (0 : CC)) k +
          ⟨(fun _ : Fin 3 => (-3 : ℚ)) k, 0⟩,
        fun k => ((fun _ : Fin 3 => (⟨3, 5⟩ : CC)) k).re) ∧
    ∀ t2 : Fin 3 → CC, (∀ k, (t2 k).re = ((fun _ : Fin 3 => (⟨3, 5⟩ : CC)) k).re) →
      updateGuess (fun _ => 0) t2 (fun r c => if r = c then (1 : ℚ) else 0) =
        updateGuess (fun _ => 0) (fun _ => ⟨3, 5⟩)
          (fun r c => if r = c then (1 : ℚ) else 0)) :=
  ⟨solve_id_neg, updateGuess_frame (fun _ => 0) (fun _ => ⟨3, 5⟩)
    (fun r c => if r = c then (1 : ℚ) else 0) (fun _ => -3) solve_id_neg⟩
